import Mathlib

/-!
Verification of the BPF C SDK frame decoder (`sol_deserialize` in
`sdk/inc/sol_bpf.h`), the `dup_accounts` example program, and the
privilege model exercised by the `invoked` program's instruction set.

The decoder operates on a flat byte buffer through unchecked pointer
arithmetic, so memory is embedded as a total byte function `Nat → Nat`
(address to byte value): reads past the caller's buffer succeed and
return whatever lies there, exactly as the C code performs no bounds
checks.  Pointers produced by the decoder are represented as offsets
into that memory; the decoder copies no bytes.
-/

namespace SolBpf

/-- Byte-addressed memory: the single input buffer the host lends to the
program, extended to all addresses since the C code never checks bounds. -/
abbrev Mem := Nat → Nat

/-- Little-endian read of an 8-byte unsigned integer at offset `off`,
the embedding of the C expression reading through a `uint64_t` pointer. -/
def readU64 (mem : Mem) (off : Nat) : Nat :=
  mem off + 256 * (mem (off + 1) + 256 * (mem (off + 2) + 256 * (mem (off + 3) +
    256 * (mem (off + 4) + 256 * (mem (off + 5) + 256 * (mem (off + 6) +
    256 * mem (off + 7)))))))

/-- Embedding of the C struct `SolKeyedAccounts`: the pointer fields
(`key`, `tokens`, `userdata`, `program_id`) are offsets into the input
buffer, and `userdata_len` is the decoded length value. -/
structure SolKeyedAccounts where
  key : Nat
  tokens : Nat
  userdata_len : Nat
  userdata : Nat
  program_id : Nat
  deriving DecidableEq, Repr

/-- One iteration of the decoding loop of `sol_deserialize`: starting at
`off`, fix the key at `off` (32 bytes), the tokens at `off + 32`
(8 bytes), read the userdata length at `off + 40` (8 bytes), fix the
userdata at `off + 48` (`userdata_len` bytes) and the program id right
after it (32 bytes); return the account view and the next cursor. -/
def decodeAccount (mem : Mem) (off : Nat) : SolKeyedAccounts × Nat :=
  let dlen := readU64 mem (off + 40)
  (⟨off, off + 32, dlen, off + 48, off + 48 + dlen⟩, off + 80 + dlen)

/-- The decoding loop of `sol_deserialize`: decode `n` accounts starting
at cursor `off`, returning the account views in buffer order and the
cursor position after the last account. -/
def decodeAccounts (mem : Mem) : Nat → Nat → List SolKeyedAccounts × Nat
  | 0, off => ([], off)
  | n + 1, off =>
    let p := decodeAccount mem off
    let rest := decodeAccounts mem n p.2
    (p.1 :: rest.1, rest.2)

/-- The outputs of a successful `sol_deserialize` call: the filled
account array `ka`, the value written to `*ka_len_out` in bounded mode,
the instruction-data pointer (an offset) and the instruction-data
length. -/
structure DeserializeResult where
  ka : List SolKeyedAccounts
  kaLenOut : Nat
  data : Nat
  dataLen : Nat
  deriving DecidableEq, Repr

/-- Embedding of `sol_deserialize`.  `bounded = false` is the exact mode
(`ka_len_out == NULL` in C): the declared count at offset 0 must equal
`ka_len` or the call fails (`none`, producing nothing — the check
precedes the decoding loop).  `bounded = true` is the bounded mode: the
count of decoded accounts is clamped to the declared count and reported.
In both modes the loop decodes from offset 8 and the 8 bytes at the
final cursor are read as the instruction-data length, the instruction
data starting right after them. -/
def sol_deserialize (mem : Mem) (ka_len : Nat) (bounded : Bool) :
    Option DeserializeResult :=
  let declared := readU64 mem 0
  if bounded then
    let n := min ka_len declared
    let r := decodeAccounts mem n 8
    some ⟨r.1, n, r.2 + 8, readU64 mem r.2⟩
  else
    if ka_len = declared then
      let r := decodeAccounts mem ka_len 8
      some ⟨r.1, ka_len, r.2 + 8, readU64 mem r.2⟩
    else
      none

/-- Cursor position of the start of account `n` when decoding from
cursor `off`: each account advances the cursor by `80 + userdata_len`
bytes (32 key + 8 tokens + 8 length + userdata + 32 program id). -/
def accStartFrom (mem : Mem) : Nat → Nat → Nat
  | off, 0 => off
  | off, n + 1 => accStartFrom mem (decodeAccount mem off).2 n

/-- Buffer offset of the start of the serialized region of account `n`:
the 8-byte count comes first, then the accounts back to back. -/
def accountStart (mem : Mem) (n : Nat) : Nat :=
  accStartFrom mem 8 n

theorem decodeAccounts_length (mem : Mem) :
    ∀ n off, ((decodeAccounts mem n off).1).length = n := by
  intro n
  induction n with
  | zero => intro off; rfl
  | succ k ih =>
    intro off
    simp [decodeAccounts, ih]

theorem decodeAccounts_snd (mem : Mem) :
    ∀ n off, (decodeAccounts mem n off).2 = accStartFrom mem off n := by
  intro n
  induction n with
  | zero => intro off; rfl
  | succ k ih =>
    intro off
    simp [decodeAccounts, accStartFrom, ih]

theorem decodeAccounts_get (mem : Mem) :
    ∀ n off i (h : i < ((decodeAccounts mem n off).1).length),
      ((decodeAccounts mem n off).1).get ⟨i, h⟩ =
        (decodeAccount mem (accStartFrom mem off i)).1 := by
  intro n
  induction n with
  | zero =>
    intro off i h
    simp [decodeAccounts] at h
  | succ k ih =>
    intro off i h
    match i with
    | 0 => simp [decodeAccounts, accStartFrom]
    | j + 1 =>
      have hj : j < ((decodeAccounts mem k (decodeAccount mem off).2).1).length := by
        simp [decodeAccounts_length] at h ⊢
        omega
      simpa [decodeAccounts, accStartFrom] using ih (decodeAccount mem off).2 j hj

theorem accStartFrom_succ (mem : Mem) :
    ∀ n off, accStartFrom mem off (n + 1) =
      (decodeAccount mem (accStartFrom mem off n)).2 := by
  intro n
  induction n with
  | zero => intro off; rfl
  | succ k ih =>
    intro off
    simpa [accStartFrom] using ih (decodeAccount mem off).2

theorem accStartFrom_le (mem : Mem) :
    ∀ n off, off + 80 * n ≤ accStartFrom mem off n := by
  intro n
  induction n with
  | zero => intro off; simp [accStartFrom]
  | succ k ih =>
    intro off
    have h := ih (decodeAccount mem off).2
    simp only [accStartFrom]
    have hstep : off + 80 ≤ (decodeAccount mem off).2 := by
      simp [decodeAccount]
    omega

theorem accStartFrom_add (mem : Mem) :
    ∀ a b off, accStartFrom mem off (a + b) =
      accStartFrom mem (accStartFrom mem off a) b := by
  intro a
  induction a with
  | zero => intro b off; simp [accStartFrom]
  | succ k ih =>
    intro b off
    have h1 : k + 1 + b = (k + b) + 1 := by omega
    rw [h1]
    show accStartFrom mem (decodeAccount mem off).2 (k + b) =
      accStartFrom mem (accStartFrom mem (decodeAccount mem off).2 k) b
    exact ih b (decodeAccount mem off).2

theorem accountStart_mono (mem : Mem) (a b : Nat) (h : a ≤ b) :
    accountStart mem a ≤ accountStart mem b := by
  have hb : b = a + (b - a) := by omega
  rw [accountStart, accountStart, hb, accStartFrom_add]
  have := accStartFrom_le mem (b - a) (accStartFrom mem 8 a)
  omega

theorem decodeAccounts_layout (mem : Mem) (n : Nat) (i : Nat)
    (hi : i < ((decodeAccounts mem n 8).1).length) :
    ((decodeAccounts mem n 8).1).get ⟨i, hi⟩ =
      ⟨accountStart mem i, accountStart mem i + 32,
       readU64 mem (accountStart mem i + 40), accountStart mem i + 48,
       accountStart mem i + 48 + readU64 mem (accountStart mem i + 40)⟩ :=
  decodeAccounts_get mem n 8 i hi

/-- Concrete one-account buffer: declared count 1, userdata length 1,
instruction-data length 1 (all other bytes zero). -/
def exMem : Mem := fun a =>
  if a = 0 then 1 else if a = 48 then 1 else if a = 89 then 1 else 0

/-- The account view decoded from `exMem`: key at offset 8, tokens at 40,
userdata of length 1 at 56, program id at 57. -/
def exAcct : SolKeyedAccounts := ⟨8, 40, 1, 56, 57⟩

/-- The full decoding result for `exMem` in exact mode with count 1. -/
def exRes : DeserializeResult := ⟨[exAcct], 1, 97, 1⟩

/-- Concrete buffer declaring 2 accounts whose first account has empty
userdata; byte 88 (the first key byte of the second account) is 7. -/
def exMem2 : Mem := fun a => if a = 0 then 2 else if a = 88 then 7 else 0

/-- Claim C1: in exact mode (`ka_len_out == NULL`) `sol_deserialize`
succeeds iff the supplied capacity equals the buffer's leading 8-byte
declared count; on a mismatch it fails returning `false` with nothing
decoded (the failure result carries no account views), and on success it
fills exactly `ka_len` account views in buffer order. -/
theorem sol_deserialize_exact_count_check (mem : Mem) (k : Nat) :
    ((sol_deserialize mem k false).isSome ↔ k = readU64 mem 0) ∧
    ∀ r, sol_deserialize mem k false = some r → r.ka.length = k := by
  constructor
  · by_cases h : k = readU64 mem 0 <;> simp [sol_deserialize, h]
  · intro r hr
    by_cases h : k = readU64 mem 0
    · simp [sol_deserialize, h] at hr
      rw [← hr]
      simp [decodeAccounts_length, h]
    · simp [sol_deserialize, h] at hr

/-- Witness for C1: the one-account buffer decoded in exact mode with
capacity 1 yields exactly one account view. -/
theorem sol_deserialize_exact_count_check_witness :
    sol_deserialize exMem 1 false = some exRes ∧ exRes.ka.length = 1 :=
  ⟨by decide, (sol_deserialize_exact_count_check exMem 1).2 exRes (by decide)⟩

/-- Claim C2: in bounded mode (`ka_len_out != NULL`) `sol_deserialize`
always succeeds and both the number of decoded account views and the
count written to `*ka_len_out` equal the minimum of the caller's
capacity and the buffer's declared count: the true count when capacity
is at least the declared count, the capacity (truncation) otherwise. -/
theorem sol_deserialize_bounded_reports_min (mem : Mem) (k : Nat) :
    ∃ r, sol_deserialize mem k true = some r ∧
      r.kaLenOut = min k (readU64 mem 0) ∧ r.ka.length = r.kaLenOut := by
  refine ⟨⟨(decodeAccounts mem (min k (readU64 mem 0)) 8).1, min k (readU64 mem 0),
    (decodeAccounts mem (min k (readU64 mem 0)) 8).2 + 8,
    readU64 mem (decodeAccounts mem (min k (readU64 mem 0)) 8).2⟩, rfl, rfl, ?_⟩
  simp [decodeAccounts_length]

/-- Claim C3: every successfully decoded frame is positional with no
padding: account `i` starts at `accountStart mem i` (8 bytes of count,
then accounts back to back, each `80 + userdata_len` bytes wide), its
key is at that offset, tokens at `+32`, userdata length read at `+40`,
userdata at `+48`, program id right after the userdata; and immediately
after the last decoded account the 8 bytes at the cursor are read as the
instruction-data length, the instruction-data pointer being the offset
right after them.  All fields are offsets into the original buffer; no
byte is copied. -/
theorem sol_deserialize_layout (mem : Mem) (k : Nat) (b : Bool)
    (r : DeserializeResult) (h : sol_deserialize mem k b = some r) :
    (∀ i (hi : i < r.ka.length),
      r.ka.get ⟨i, hi⟩ = ⟨accountStart mem i, accountStart mem i + 32,
        readU64 mem (accountStart mem i + 40), accountStart mem i + 48,
        accountStart mem i + 48 + readU64 mem (accountStart mem i + 40)⟩) ∧
    r.dataLen = readU64 mem (accountStart mem r.ka.length) ∧
    r.data = accountStart mem r.ka.length + 8 := by
  cases b with
  | false =>
    by_cases hk : k = readU64 mem 0
    · simp [sol_deserialize, hk] at h
      subst h
      refine ⟨fun i hi => decodeAccounts_layout mem _ i hi, ?_, ?_⟩ <;>
        simp [decodeAccounts_length, decodeAccounts_snd, accountStart]
    · simp [sol_deserialize, hk] at h
  | true =>
    simp [sol_deserialize] at h
    subst h
    refine ⟨fun i hi => decodeAccounts_layout mem _ i hi, ?_, ?_⟩ <;>
      simp [decodeAccounts_length, decodeAccounts_snd, accountStart]

/-- Witness for C3: on the concrete one-account buffer the decoder
places the instruction-data length read at the cursor after the single
account and the instruction-data pointer 8 bytes later. -/
theorem sol_deserialize_layout_witness :
    exRes.dataLen = readU64 exMem (accountStart exMem exRes.ka.length) ∧
    exRes.data = accountStart exMem exRes.ka.length + 8 :=
  (sol_deserialize_layout exMem 1 false exRes (by decide)).2

/-- Claim C9: bounded mode never fails — for every memory and capacity
the call returns success; the exact-mode count mismatch is the only
failure condition of `sol_deserialize`.  No read is checked against any
buffer extent (memory is total in the embedding precisely because the C
code performs no bounds checks). -/
theorem sol_deserialize_bounded_total (mem : Mem) (k : Nat) :
    (sol_deserialize mem k true).isSome = true ∧
    (sol_deserialize mem k false = none ↔ k ≠ readU64 mem 0) := by
  constructor
  · rfl
  · by_cases h : k = readU64 mem 0 <;> simp [sol_deserialize, h]

/-- Witness for C9 at a concrete buffer and capacity 0. -/
theorem sol_deserialize_bounded_total_witness :
    (sol_deserialize exMem2 0 true).isSome = true ∧
    (sol_deserialize exMem2 0 false = none ↔ (0 : Nat) ≠ readU64 exMem2 0) :=
  sol_deserialize_bounded_total exMem2 0

/-- Claim C10: under bounded-mode truncation (capacity below the
declared count) the instruction-data length is read at the cursor right
after the last decoded account — an offset inside the first undecoded
account's serialized region, strictly before the buffer's trailing
instruction-data region at `accountStart mem declared`. -/
theorem sol_deserialize_truncated_instr_src (mem : Mem) (k : Nat)
    (h : k < readU64 mem 0) :
    ∃ r, sol_deserialize mem k true = some r ∧
      r.ka.length = k ∧
      r.dataLen = readU64 mem (accountStart mem k) ∧
      r.data = accountStart mem k + 8 ∧
      accountStart mem k + 8 ≤ accountStart mem (k + 1) ∧
      accountStart mem (k + 1) ≤ accountStart mem (readU64 mem 0) := by
  have hmin : min k (readU64 mem 0) = k := by omega
  refine ⟨⟨(decodeAccounts mem (min k (readU64 mem 0)) 8).1, min k (readU64 mem 0),
    (decodeAccounts mem (min k (readU64 mem 0)) 8).2 + 8,
    readU64 mem (decodeAccounts mem (min k (readU64 mem 0)) 8).2⟩,
    rfl, ?_, ?_, ?_, ?_, ?_⟩
  · simp [decodeAccounts_length, hmin]
  · simp [hmin, decodeAccounts_snd, accountStart]
  · simp [hmin, decodeAccounts_snd, accountStart]
  · rw [accountStart, accountStart, accStartFrom_succ]
    have hs : accStartFrom mem 8 k + 80 ≤ (decodeAccount mem (accStartFrom mem 8 k)).2 := by
      simp [decodeAccount]
    omega
  · exact accountStart_mono mem (k + 1) (readU64 mem 0) (by omega)

/-- Witness for C10: the two-account buffer truncated to capacity 1
reads its instruction-data length at offset 88, inside the second
account's region. -/
theorem sol_deserialize_truncated_instr_src_witness :
    1 < readU64 exMem2 0 ∧
    ∃ r, sol_deserialize exMem2 1 true = some r ∧
      r.ka.length = 1 ∧
      r.dataLen = readU64 exMem2 (accountStart exMem2 1) ∧
      r.data = accountStart exMem2 1 + 8 ∧
      accountStart exMem2 1 + 8 ≤ accountStart exMem2 (1 + 1) ∧
      accountStart exMem2 (1 + 1) ≤ accountStart exMem2 (readU64 exMem2 0) :=
  ⟨by decide, sol_deserialize_truncated_instr_src exMem2 1 (by decide)⟩

/-- Replace the element at an index, leaving the list unchanged when the
index is out of range. -/
def modifyAt {α : Type} (f : α → α) : Nat → List α → List α
  | _, [] => []
  | 0, a :: as => f a :: as
  | n + 1, a :: as => a :: modifyAt f n as

theorem getD_set_eq {α : Type} (l : List α) :
    ∀ j (x d : α), j < l.length → (l.set j x).getD j d = x := by
  induction l with
  | nil => intro j x d h; simp at h
  | cons a as ih =>
    intro j x d h
    cases j with
    | zero => rfl
    | succ n =>
      simp only [List.set_cons_succ, List.getD_cons_succ]
      exact ih n x d (by simp at h; omega)

theorem getD_set_ne {α : Type} (l : List α) :
    ∀ j m (x d : α), m ≠ j → (l.set j x).getD m d = l.getD m d := by
  induction l with
  | nil => intro j m x d h; rfl
  | cons a as ih =>
    intro j m x d h
    cases j with
    | zero =>
      cases m with
      | zero => exact absurd rfl h
      | succ i => rfl
    | succ n =>
      cases m with
      | zero => rfl
      | succ i =>
        simp only [List.set_cons_succ, List.getD_cons_succ]
        exact ih n i x d (by omega)

theorem getD_modifyAt_eq {α : Type} (f : α → α) :
    ∀ n (l : List α) (d : α), n < l.length →
      (modifyAt f n l).getD n d = f (l.getD n d) := by
  intro n
  induction n with
  | zero =>
    intro l d h
    cases l with
    | nil => simp at h
    | cons a as => rfl
  | succ k ih =>
    intro l d h
    cases l with
    | nil => simp at h
    | cons a as =>
      simp only [modifyAt, List.getD_cons_succ]
      exact ih as d (by simp at h; omega)

theorem getD_modifyAt_ne {α : Type} (f : α → α) :
    ∀ n m (l : List α) (d : α), m ≠ n →
      (modifyAt f n l).getD m d = l.getD m d := by
  intro n
  induction n with
  | zero =>
    intro m l d h
    cases l with
    | nil => rfl
    | cons a as =>
      cases m with
      | zero => exact absurd rfl h
      | succ i => rfl
  | succ k ih =>
    intro m l d h
    cases l with
    | nil => rfl
    | cons a as =>
      cases m with
      | zero => rfl
      | succ i =>
        simp only [modifyAt, List.getD_cons_succ]
        exact ih i as d (by omega)

/-- Modelled from the spec: the account record of the newer SDK frame
(`SolAccountInfo` of `solana_sdk.h`, not under `src/`) restricted to the
mutable state the example program touches — the lamports balance and the
data bytes. -/
structure Account where
  lamports : Int
  data : List Nat
  deriving DecidableEq

/-- Default account used by out-of-range lookups. -/
def defaultAccount : Account := ⟨0, []⟩

/-- Modelled from the spec: a decoded frame in which each positional
account view is an index into a side table of shared mutable account
cells, so that duplicate views alias the same backing storage by
construction (the duplicate-account decoding of `solana_sdk.h` is not
under `src/`; the spec requires true aliasing between duplicate views). -/
structure Frame where
  cells : List Account
  view : List Nat
  instrData : List Nat
  deriving DecidableEq

/-- Cell index referenced by the positional view `p`. -/
def viewCell (f : Frame) (p : Nat) : Nat := f.view.getD p 0

/-- Account cell stored at index `c`. -/
def cellAt (f : Frame) (c : Nat) : Account := f.cells.getD c defaultAccount

/-- Read data byte `j` of the account seen through view `p`. -/
def readDataByte (f : Frame) (p j : Nat) : Nat :=
  ((cellAt f (viewCell f p)).data).getD j 0

/-- Write data byte `j` of the account seen through view `p` (byte
stores truncate modulo 256, as through the C `uint8_t` pointer). -/
def writeDataByte (f : Frame) (p j v : Nat) : Frame :=
  ⟨modifyAt (fun a => ⟨a.lamports, a.data.set j (v % 256)⟩) (viewCell f p) f.cells,
   f.view, f.instrData⟩

/-- Read the lamports balance through view `p`. -/
def readLamports (f : Frame) (p : Nat) : Int :=
  (cellAt f (viewCell f p)).lamports

/-- Write the lamports balance through view `p`. -/
def writeLamports (f : Frame) (p : Nat) (v : Int) : Frame :=
  ⟨modifyAt (fun a => ⟨v, a.data⟩) (viewCell f p) f.cells, f.view, f.instrData⟩

/-- Claim C4: two positional views backed by the same account cell are
true aliases — a data byte (or the balance) written through either view
is read back through the other, in both directions. -/
theorem duplicate_views_alias (f : Frame) (p q j : Nat) (v : Nat) (w : Int)
    (hdup : viewCell f p = viewCell f q)
    (hc : viewCell f p < f.cells.length)
    (hj : j < (cellAt f (viewCell f p)).data.length) :
    readDataByte (writeDataByte f p j v) q j = v % 256 ∧
    readDataByte (writeDataByte f q j v) p j = v % 256 ∧
    readLamports (writeLamports f p w) q = w ∧
    readLamports (writeLamports f q w) p = w := by
  have hq : viewCell f q < f.cells.length := hdup ▸ hc
  have hjq : j < (cellAt f (viewCell f q)).data.length := hdup ▸ hj
  refine ⟨?_, ?_, ?_, ?_⟩
  · show ((cellAt ⟨_, f.view, f.instrData⟩ (viewCell f q)).data).getD j 0 = v % 256
    unfold cellAt
    rw [show viewCell f q = viewCell f p from hdup.symm]
    rw [getD_modifyAt_eq _ _ _ _ hc]
    exact getD_set_eq _ j (v % 256) 0 hj
  · show ((cellAt ⟨_, f.view, f.instrData⟩ (viewCell f p)).data).getD j 0 = v % 256
    unfold cellAt
    rw [show viewCell f p = viewCell f q from hdup]
    rw [getD_modifyAt_eq _ _ _ _ hq]
    exact getD_set_eq _ j (v % 256) 0 hjq
  · show (cellAt ⟨_, f.view, f.instrData⟩ (viewCell f q)).lamports = w
    unfold cellAt
    rw [show viewCell f q = viewCell f p from hdup.symm]
    rw [getD_modifyAt_eq _ _ _ _ hc]
  · show (cellAt ⟨_, f.view, f.instrData⟩ (viewCell f p)).lamports = w
    unfold cellAt
    rw [show viewCell f p = viewCell f q from hdup]
    rw [getD_modifyAt_eq _ _ _ _ hq]

/-- Concrete frame whose positions 2 and 3 both reference cell 1. -/
def fExDup : Frame := ⟨[⟨10, [0, 0]⟩, ⟨5, [3, 4]⟩], [0, 1, 1, 1], []⟩

/-- Witness for C4: on the concrete duplicated frame, a byte written
through position 2 is read back through position 3 and conversely. -/
theorem duplicate_views_alias_witness :
    readDataByte (writeDataByte fExDup 2 0 9) 3 0 = 9 % 256 ∧
    readDataByte (writeDataByte fExDup 3 0 9) 2 0 = 9 % 256 ∧
    readLamports (writeLamports fExDup 2 77) 3 = 77 ∧
    readLamports (writeLamports fExDup 3 77) 2 = 77 :=
  duplicate_views_alias fExDup 2 3 0 9 77 (by decide) (by decide) (by decide)

/-- Modelled from the spec: the zero success sentinel returned by the
program entrypoint (`SUCCESS` of `solana_sdk.h`, not under `src/`). -/
def SUCCESS : Nat := 0

/-- Modelled from the spec: the nonzero decode-failure status
(`ERROR_INVALID_ARGUMENT` of `solana_sdk.h`, not under `src/`). -/
def ERROR_INVALID_ARGUMENT : Nat := 1

/-- Modelled from the spec: the nonzero unrecognized-opcode status
(`ERROR_INVALID_INSTRUCTION_DATA` of `solana_sdk.h`, not under
`src/`); distinct from `SUCCESS` and from `ERROR_INVALID_ARGUMENT`. -/
def ERROR_INVALID_INSTRUCTION_DATA : Nat := 2

/-- Add a signed delta to the balance seen through view `p` — one C
statement of the form the entrypoint uses on `*ka[p].lamports`. -/
def addLamports (f : Frame) (p : Nat) (d : Int) : Frame :=
  writeLamports f p (readLamports f p + d)

/-- Add a delta to data byte `j` seen through view `p`, truncating
modulo 256 as the C `uint8_t` store does. -/
def incDataByte (f : Frame) (p j d : Nat) : Frame :=
  writeDataByte f p j (readDataByte f p j + d)

/-- The post-decode body of the `dup_accounts` entrypoint: dispatch on
the first instruction-data byte; opcodes 1–3 write account data through
views 2 and 3, opcodes 4–6 move lamports between views 1, 2 and 3, and
any other opcode reports `ERROR_INVALID_INSTRUCTION_DATA` mutating
nothing.  Writes are threaded left to right as the C statements are. -/
def dupAccountsEntry (f : Frame) : Nat × Frame :=
  if f.instrData.getD 0 0 = 1 then (SUCCESS, writeDataByte f 2 0 1)
  else if f.instrData.getD 0 0 = 2 then (SUCCESS, writeDataByte f 3 0 2)
  else if f.instrData.getD 0 0 = 3 then
    (SUCCESS, incDataByte (incDataByte f 2 0 1) 3 0 2)
  else if f.instrData.getD 0 0 = 4 then
    (SUCCESS, addLamports (addLamports f 1 (-1)) 2 1)
  else if f.instrData.getD 0 0 = 5 then
    (SUCCESS, addLamports (addLamports f 1 (-2)) 3 2)
  else if f.instrData.getD 0 0 = 6 then
    (SUCCESS, addLamports (addLamports (addLamports f 1 (-3)) 2 1) 3 2)
  else (ERROR_INVALID_INSTRUCTION_DATA, f)

/-- Claim C7: on a decoded 4-account frame whose first instruction-data
byte is 1, the program returns `SUCCESS`, the cell behind view 2 gets
its data byte 0 set to 1 with every other data byte kept, every balance
is unchanged, every other cell is untouched, and the view table and
instruction data are untouched. -/
theorem dup_accounts_opcode_one (f : Frame)
    (hop : f.instrData.getD 0 0 = 1)
    (hv : viewCell f 2 < f.cells.length) :
    (dupAccountsEntry f).1 = SUCCESS ∧
    (dupAccountsEntry f).2.view = f.view ∧
    (dupAccountsEntry f).2.instrData = f.instrData ∧
    (cellAt (dupAccountsEntry f).2 (viewCell f 2)).data =
      ((cellAt f (viewCell f 2)).data).set 0 1 ∧
    (∀ c, (cellAt (dupAccountsEntry f).2 c).lamports = (cellAt f c).lamports) ∧
    (∀ c, c ≠ viewCell f 2 → cellAt (dupAccountsEntry f).2 c = cellAt f c) := by
  have hred : dupAccountsEntry f = (SUCCESS, writeDataByte f 2 0 1) := by
    unfold dupAccountsEntry
    rw [if_pos hop]
  rw [hred]
  refine ⟨rfl, rfl, rfl, ?_, ?_, ?_⟩
  · show ((modifyAt _ (viewCell f 2) f.cells).getD (viewCell f 2) defaultAccount).data =
      ((cellAt f (viewCell f 2)).data).set 0 1
    rw [getD_modifyAt_eq _ _ _ _ hv]
    rfl
  · intro c
    by_cases hcc : c = viewCell f 2
    · rw [hcc]
      show ((modifyAt _ (viewCell f 2) f.cells).getD (viewCell f 2) defaultAccount).lamports =
        (cellAt f (viewCell f 2)).lamports
      rw [getD_modifyAt_eq _ _ _ _ hv]
      rfl
    · show ((modifyAt _ (viewCell f 2) f.cells).getD c defaultAccount).lamports =
        (cellAt f c).lamports
      rw [getD_modifyAt_ne _ _ _ _ _ hcc]
      rfl
  · intro c hcc
    show (modifyAt _ (viewCell f 2) f.cells).getD c defaultAccount = cellAt f c
    rw [getD_modifyAt_ne _ _ _ _ _ hcc]
    rfl

/-- Concrete 4-view frame with opcode byte 1. -/
def fEx7 : Frame := ⟨[⟨3, [5, 6]⟩, ⟨4, [7]⟩], [0, 1, 0, 1], [1]⟩

/-- Witness for C7: on the concrete frame, opcode 1 succeeds and sets
data byte 0 of the cell behind view 2 to 1. -/
theorem dup_accounts_opcode_one_witness :
    (dupAccountsEntry fEx7).1 = SUCCESS ∧
    (cellAt (dupAccountsEntry fEx7).2 (viewCell fEx7 2)).data =
      ((cellAt fEx7 (viewCell fEx7 2)).data).set 0 1 :=
  ⟨(dup_accounts_opcode_one fEx7 (by decide) (by decide)).1,
   (dup_accounts_opcode_one fEx7 (by decide) (by decide)).2.2.2.1⟩

/-- Claim C8: on a decoded frame whose first instruction-data byte is
none of the opcodes 1 through 6, the program returns
`ERROR_INVALID_INSTRUCTION_DATA` and the frame — every balance and
every data byte — is unchanged. -/
theorem dup_accounts_unknown_opcode (f : Frame)
    (hop : ¬(1 ≤ f.instrData.getD 0 0 ∧ f.instrData.getD 0 0 ≤ 6)) :
    dupAccountsEntry f = (ERROR_INVALID_INSTRUCTION_DATA, f) := by
  have h1 : f.instrData.getD 0 0 ≠ 1 := by omega
  have h2 : f.instrData.getD 0 0 ≠ 2 := by omega
  have h3 : f.instrData.getD 0 0 ≠ 3 := by omega
  have h4 : f.instrData.getD 0 0 ≠ 4 := by omega
  have h5 : f.instrData.getD 0 0 ≠ 5 := by omega
  have h6 : f.instrData.getD 0 0 ≠ 6 := by omega
  unfold dupAccountsEntry
  rw [if_neg h1, if_neg h2, if_neg h3, if_neg h4, if_neg h5, if_neg h6]

/-- Concrete 4-view frame with the unrecognized opcode byte 9. -/
def fEx8 : Frame := ⟨[⟨0, [0]⟩], [0, 0, 0, 0], [9]⟩

/-- Witness for C8: opcode 9 reports invalid instruction data and
leaves the concrete frame untouched. -/
theorem dup_accounts_unknown_opcode_witness :
    dupAccountsEntry fEx8 = (ERROR_INVALID_INSTRUCTION_DATA, fEx8) :=
  dup_accounts_unknown_opcode fEx8 (by decide)

/-- Modelled from the spec: the per-account signer/writable authority a
frame holds (the privilege model of the runtime is not under `src/`;
only the `invoked` program's opcode names witness it). -/
structure Grant where
  is_signer : Bool
  is_writable : Bool
  deriving DecidableEq

/-- Modelled from the spec: the fatal validation failures of the
privilege model. -/
inductive InvokeError where
  | PrivilegeViolation
  | IntegrityViolation
  deriving DecidableEq

/-- Modelled from the spec: `req` claims no flag that `held` lacks —
the subset-or-equal rule on grants at a call boundary. -/
def grantSubset (req held : Grant) : Bool :=
  (!req.is_signer || held.is_signer) && (!req.is_writable || held.is_writable)

/-- Modelled from the spec: validation of one nested-call grant request
against the caller's grant — any escalation of either flag is rejected
with `PrivilegeViolation`. -/
def validateNestedGrant (held req : Grant) : Except InvokeError Unit :=
  if grantSubset req held then Except.ok ()
  else Except.error InvokeError.PrivilegeViolation

/-- Modelled from the spec: validation of a chain of nested calls for
one account — each successfully requested grant becomes the ceiling for
the next deeper call; the grant of the innermost frame is returned. -/
def validateChain (outer : Grant) : List Grant → Except InvokeError Grant
  | [] => Except.ok outer
  | g :: gs =>
    if grantSubset g outer then validateChain g gs
    else Except.error InvokeError.PrivilegeViolation

theorem grantSubset_refl (g : Grant) : grantSubset g g = true := by
  cases g with
  | mk s w => cases s <;> cases w <;> rfl

theorem bool_imp_trans (a b c : Bool) (h1 : (!a || b) = true)
    (h2 : (!b || c) = true) : (!a || c) = true := by
  cases a <;> cases b <;> cases c <;> simp_all

theorem grantSubset_trans (a b c : Grant) (h1 : grantSubset a b = true)
    (h2 : grantSubset b c = true) : grantSubset a c = true := by
  simp only [grantSubset, Bool.and_eq_true] at h1 h2 ⊢
  exact ⟨bool_imp_trans _ _ _ h1.1 h2.1, bool_imp_trans _ _ _ h1.2 h2.2⟩

theorem validateChain_ok_subset (gs : List Grant) :
    ∀ c g, validateChain c gs = Except.ok g → grantSubset g c = true := by
  induction gs with
  | nil =>
    intro c g h
    simp [validateChain] at h
    subst h
    exact grantSubset_refl c
  | cons a as ih =>
    intro c g h
    by_cases hsub : grantSubset a c = true
    · rw [validateChain, if_pos hsub] at h
      exact grantSubset_trans g a c (ih a g h) hsub
    · rw [validateChain, if_neg hsub] at h
      exact absurd h (by simp)

/-- Claim C5: a nested-call grant request that sets the signer flag
where the caller's grant lacks it — or, independently, the writable
flag — is rejected with `PrivilegeViolation`. -/
theorem privilege_escalation_rejected (held req : Grant)
    (h : (req.is_signer = true ∧ held.is_signer = false) ∨
         (req.is_writable = true ∧ held.is_writable = false)) :
    validateNestedGrant held req = Except.error InvokeError.PrivilegeViolation := by
  rcases h with ⟨ha, hb⟩ | ⟨ha, hb⟩ <;>
    simp [validateNestedGrant, grantSubset, ha, hb]

/-- Witness for C5: requesting signer over a non-signer grant is
rejected; so is requesting writable over a read-only grant. -/
theorem privilege_escalation_rejected_witness :
    validateNestedGrant ⟨false, true⟩ ⟨true, true⟩ =
      Except.error InvokeError.PrivilegeViolation ∧
    validateNestedGrant ⟨true, false⟩ ⟨true, true⟩ =
      Except.error InvokeError.PrivilegeViolation :=
  ⟨privilege_escalation_rejected ⟨false, true⟩ ⟨true, true⟩ (Or.inl ⟨rfl, rfl⟩),
   privilege_escalation_rejected ⟨true, false⟩ ⟨true, true⟩ (Or.inr ⟨rfl, rfl⟩)⟩

/-- Claim C6: narrowing a grant at one call boundary succeeds, and at
every deeper boundary any attempt to re-widen it past the narrowed
ceiling fails with `PrivilegeViolation`, even when the outermost grant
would have allowed the wider request — each frame's grant is the
ceiling for all deeper frames. -/
theorem narrowing_then_widening (outer narrow wide : Grant)
    (h1 : grantSubset narrow outer = true)
    (h2 : grantSubset wide narrow = false)
    (_h3 : grantSubset wide outer = true) :
    validateChain outer [narrow] = Except.ok narrow ∧
    ∀ gs g, validateChain narrow gs = Except.ok g →
      validateChain g [wide] = Except.error InvokeError.PrivilegeViolation := by
  constructor
  · simp [validateChain, h1]
  · intro gs g hg
    have hsub : grantSubset g narrow = true := validateChain_ok_subset gs narrow g hg
    have hw : grantSubset wide g = false := by
      cases hgw : grantSubset wide g
      · rfl
      · exact absurd (grantSubset_trans wide g narrow hgw hsub) (by simp [h2])
    simp [validateChain, hw]

/-- Witness for C6: a write-capable signer grant narrowed to read-only
passes one boundary, after which re-requesting the signer flag fails
although the outermost grant carried it. -/
theorem narrowing_then_widening_witness :
    validateChain ⟨true, true⟩ [⟨false, false⟩] = Except.ok ⟨false, false⟩ ∧
    validateChain ⟨false, false⟩ [⟨true, false⟩] =
      Except.error InvokeError.PrivilegeViolation :=
  ⟨(narrowing_then_widening ⟨true, true⟩ ⟨false, false⟩ ⟨true, false⟩
      (by decide) (by decide) (by decide)).1,
   (narrowing_then_widening ⟨true, true⟩ ⟨false, false⟩ ⟨true, false⟩
      (by decide) (by decide) (by decide)).2 [] ⟨false, false⟩ rfl⟩

end SolBpf
